import Mathlib

/-!
# Verification of the `rust_srt` SRT subtitle library

Shallow embedding of the library (files `timestamp.rs`, `subline.rs`,
`subtitles.rs`, `utils.rs`, `lib.rs`) and proofs about it.

Modelling conventions:
* Rust `u32`/`u64`/`usize` values are modelled as `Nat`.  Where a u32
  addition can overflow, the wrap is written explicitly as `% u32Mod`;
  u32 subtractions in the borrow chains are modelled by truncated `Nat`
  subtraction (on the inputs our theorems quantify over, no subtraction
  there ever underflows, which we in effect prove).
* Text (`&str`/`String`) is modelled as `List Nat` of Unicode code points.
* A Rust function that can `panic!` is modelled with the outcome type
  `RustResult`: `ok` is a normal return, `err` is a recoverable `Result`
  error value returned to the caller, and `panicked` is a process abort.
-/

/-- Modulus of the Rust `u32` type. -/
def u32Mod : Nat := 4294967296

/-- Text is a list of Unicode code points (13 = CR, 10 = LF, 48-57 digits). -/
abbrev Text := List Nat

/-- Outcome of running a Rust function: a returned value, a recoverable
`Result::Err` handed to the caller, or a `panic!` (process abort). -/
inductive RustResult (α : Type) where
  | ok : α → RustResult α
  | err : String → RustResult α
  | panicked : String → RustResult α
deriving DecidableEq

/-- Whether the outcome is a recoverable error value. -/
def RustResult.isErr : RustResult α → Bool
  | .err _ => true
  | _ => false

/-- Whether the outcome is a normal return. -/
def RustResult.isOk : RustResult α → Bool
  | .ok _ => true
  | _ => false

/-- `Timestamp` from `timestamp.rs`: four `u32` fields. -/
structure Timestamp where
  hours : Nat
  minutes : Nat
  seconds : Nat
  miliseconds : Nat
deriving DecidableEq

/-- The strict order on timestamps derived by `#[derive(PartialOrd, Ord)]`:
lexicographic on the fields in declaration order
(hours, minutes, seconds, miliseconds). -/
def Timestamp.lt (a b : Timestamp) : Prop :=
  a.hours < b.hours ∨ (a.hours = b.hours ∧
    (a.minutes < b.minutes ∨ (a.minutes = b.minutes ∧
      (a.seconds < b.seconds ∨ (a.seconds = b.seconds ∧
        a.miliseconds < b.miliseconds)))))

instance (a b : Timestamp) : Decidable (Timestamp.lt a b) := by
  unfold Timestamp.lt; exact inferInstance

/-- Derived `<=`: for the derived total order, `a <= b` iff `¬ (b < a)`. -/
def Timestamp.le (a b : Timestamp) : Prop := ¬ Timestamp.lt b a

instance (a b : Timestamp) : Decidable (Timestamp.le a b) := by
  unfold Timestamp.le; exact inferInstance

/-- Field invariant the spec demands after construction/arithmetic. -/
def Timestamp.valid (t : Timestamp) : Prop :=
  t.miliseconds < 1000 ∧ t.seconds < 60 ∧ t.minutes < 60

instance (t : Timestamp) : Decidable (Timestamp.valid t) := by
  unfold Timestamp.valid; exact inferInstance

/-- `Timestamp::new` (timestamp.rs:31-57): carries overflow
ms→s→min→hr.  Each `+=` is a u32 addition and may wrap; the
multiplications and subtractions cannot overflow u32. -/
def Timestamp.new (hours minutes seconds miliseconds : Nat) : Timestamp :=
  let seconds1 := if 1000 ≤ miliseconds then (seconds + miliseconds / 1000) % u32Mod else seconds
  let miliseconds1 := if 1000 ≤ miliseconds then miliseconds - miliseconds / 1000 * 1000 else miliseconds
  let minutes1 := if 60 ≤ seconds1 then (minutes + seconds1 / 60) % u32Mod else minutes
  let seconds2 := if 60 ≤ seconds1 then seconds1 - seconds1 / 60 * 60 else seconds1
  let hours1 := if 60 ≤ minutes1 then (hours + minutes1 / 60) % u32Mod else hours
  let minutes2 := if 60 ≤ minutes1 then minutes1 - minutes1 / 60 * 60 else minutes1
  ⟨hours1, minutes2, seconds2, miliseconds1⟩

/-- `Timestamp::total_miliseconds` (timestamp.rs:74-82), verbatim: note the
hours factor `360_000` in the source. -/
def Timestamp.total_miliseconds (t : Timestamp) : Nat :=
  t.miliseconds + t.seconds * 1000 + t.minutes * 60000 + t.hours * 360000

/-- `to_miliseconds` (lib.rs:256-263): the milliseconds total of a
(hours, minutes, seconds, miliseconds) quadruple. -/
def to_miliseconds (h m s ms : Nat) : Nat :=
  ms + s * 1000 + m * 1000 * 60 + h * 1000 * 60 * 60

/-- Total milliseconds of a `Timestamp` via `to_miliseconds`. -/
def Timestamp.toTotal (t : Timestamp) : Nat :=
  to_miliseconds t.hours t.minutes t.seconds t.miliseconds

/-- `impl Add for Timestamp` (timestamp.rs:102-136): the four initial
additions are u32 (may wrap), the carry arithmetic is u64 (cannot wrap),
and the final stores cast u64 back to u32. -/
def Timestamp.add (a b : Timestamp) : Timestamp :=
  let miliseconds := (a.miliseconds + b.miliseconds) % u32Mod
  let seconds := (a.seconds + b.seconds) % u32Mod
  let minutes := (a.minutes + b.minutes) % u32Mod
  let hours := (a.hours + b.hours) % u32Mod
  let seconds1 := if 1000 ≤ miliseconds then seconds + miliseconds / 1000 else seconds
  let miliseconds1 := if 1000 ≤ miliseconds then miliseconds - miliseconds / 1000 * 1000 else miliseconds
  let minutes1 := if 60 ≤ seconds1 then minutes + seconds1 / 60 else minutes
  let seconds2 := if 60 ≤ seconds1 then seconds1 - seconds1 / 60 * 60 else seconds1
  let hours1 := if 60 ≤ minutes1 then hours + minutes1 / 60 else hours
  let minutes2 := if 60 ≤ minutes1 then minutes1 - minutes1 / 60 * 60 else minutes1
  ⟨hours1 % u32Mod, minutes2 % u32Mod, seconds2 % u32Mod, miliseconds1 % u32Mod⟩

/-- `impl AddAssign for Timestamp` (timestamp.rs:138-163): same algorithm
but carried out entirely in u32, so every addition may wrap. -/
def Timestamp.addAssign (a b : Timestamp) : Timestamp :=
  let miliseconds := (a.miliseconds + b.miliseconds) % u32Mod
  let seconds := (a.seconds + b.seconds) % u32Mod
  let minutes := (a.minutes + b.minutes) % u32Mod
  let hours := (a.hours + b.hours) % u32Mod
  let seconds1 := if 1000 ≤ miliseconds then (seconds + miliseconds / 1000) % u32Mod else seconds
  let miliseconds1 := if 1000 ≤ miliseconds then miliseconds - miliseconds / 1000 * 1000 else miliseconds
  let minutes1 := if 60 ≤ seconds1 then (minutes + seconds1 / 60) % u32Mod else minutes
  let seconds2 := if 60 ≤ seconds1 then seconds1 - seconds1 / 60 * 60 else seconds1
  let hours1 := if 60 ≤ minutes1 then (hours + minutes1 / 60) % u32Mod else hours
  let minutes2 := if 60 ≤ minutes1 then minutes1 - minutes1 / 60 * 60 else minutes1
  ⟨hours1, minutes2, seconds2, miliseconds1⟩

/-- Panic message of `impl Sub for Timestamp` (the source text reads
"attempt to subtract with overflow, timestamp can't be negative"). -/
def negativeDurationMsg : String :=
  "attempt to subtract with overflow, timestamp cannot be negative"

/-- `impl Sub for Timestamp` (timestamp.rs:165-223): panics when
`self < other`, otherwise computes the field-wise difference with
borrowing.  The u32 subtractions are modelled by truncated `Nat`
subtraction; on valid ordered inputs none of them underflows. -/
def Timestamp.sub (a b : Timestamp) : RustResult Timestamp :=
  if Timestamp.lt a b then .panicked negativeDurationMsg
  else
    let hours := a.hours - b.hours
    let minutes := if a.minutes < b.minutes then a.minutes + 60 else a.minutes
    let hours1 := if a.minutes < b.minutes then hours - 1 else hours
    let minutes1 := minutes - b.minutes
    let minutes2 := if a.seconds < b.seconds ∧ minutes1 = 0 then minutes1 + 60 else minutes1
    let hours2 := if a.seconds < b.seconds ∧ minutes1 = 0 then hours1 - 1 else hours1
    let seconds := if a.seconds < b.seconds then a.seconds + 60 else a.seconds
    let minutes3 := if a.seconds < b.seconds then minutes2 - 1 else minutes2
    let seconds1 := seconds - b.seconds
    let minutes4 := if a.miliseconds < b.miliseconds ∧ seconds1 = 0 ∧ minutes3 = 0 then minutes3 + 60 else minutes3
    let hours3 := if a.miliseconds < b.miliseconds ∧ seconds1 = 0 ∧ minutes3 = 0 then hours2 - 1 else hours2
    let seconds2 := if a.miliseconds < b.miliseconds ∧ seconds1 = 0 then seconds1 + 60 else seconds1
    let minutes5 := if a.miliseconds < b.miliseconds ∧ seconds1 = 0 then minutes4 - 1 else minutes4
    let miliseconds := if a.miliseconds < b.miliseconds then a.miliseconds + 1000 else a.miliseconds
    let seconds3 := if a.miliseconds < b.miliseconds then seconds2 - 1 else seconds2
    let miliseconds1 := miliseconds - b.miliseconds
    .ok ⟨hours3, minutes5, seconds3, miliseconds1⟩

/-- `impl SubAssign for Timestamp` (timestamp.rs:225-272): textually the
same algorithm as `Sub`, performed in place on `self`. -/
def Timestamp.subAssign (a b : Timestamp) : RustResult Timestamp :=
  if Timestamp.lt a b then .panicked negativeDurationMsg
  else
    let hours := a.hours - b.hours
    let minutes := if a.minutes < b.minutes then a.minutes + 60 else a.minutes
    let hours1 := if a.minutes < b.minutes then hours - 1 else hours
    let minutes1 := minutes - b.minutes
    let minutes2 := if a.seconds < b.seconds ∧ minutes1 = 0 then minutes1 + 60 else minutes1
    let hours2 := if a.seconds < b.seconds ∧ minutes1 = 0 then hours1 - 1 else hours1
    let seconds := if a.seconds < b.seconds then a.seconds + 60 else a.seconds
    let minutes3 := if a.seconds < b.seconds then minutes2 - 1 else minutes2
    let seconds1 := seconds - b.seconds
    let minutes4 := if a.miliseconds < b.miliseconds ∧ seconds1 = 0 ∧ minutes3 = 0 then minutes3 + 60 else minutes3
    let hours3 := if a.miliseconds < b.miliseconds ∧ seconds1 = 0 ∧ minutes3 = 0 then hours2 - 1 else hours2
    let seconds2 := if a.miliseconds < b.miliseconds ∧ seconds1 = 0 then seconds1 + 60 else seconds1
    let minutes5 := if a.miliseconds < b.miliseconds ∧ seconds1 = 0 then minutes4 - 1 else minutes4
    let miliseconds := if a.miliseconds < b.miliseconds then a.miliseconds + 1000 else a.miliseconds
    let seconds3 := if a.miliseconds < b.miliseconds then seconds2 - 1 else seconds2
    let miliseconds1 := miliseconds - b.miliseconds
    .ok ⟨hours3, minutes5, seconds3, miliseconds1⟩

section OrderLemmas

/-- Transitivity of the derived lexicographic strict order. -/
theorem Timestamp.lt_trans {a b c : Timestamp} (h1 : Timestamp.lt a b)
    (h2 : Timestamp.lt b c) : Timestamp.lt a c := by
  simp only [Timestamp.lt] at *; omega

/-- Mixed transitivity: `a < b ≤ c` gives `a < c`. -/
theorem Timestamp.lt_of_lt_of_le {a b c : Timestamp} (h1 : Timestamp.lt a b)
    (h2 : Timestamp.le b c) : Timestamp.lt a c := by
  simp only [Timestamp.lt, Timestamp.le] at *; omega

/-- Mixed transitivity: `a ≤ b < c` gives `a < c`. -/
theorem Timestamp.lt_of_le_of_lt {a b c : Timestamp} (h1 : Timestamp.le a b)
    (h2 : Timestamp.lt b c) : Timestamp.lt a c := by
  simp only [Timestamp.lt, Timestamp.le] at *; omega

/-- The derived order is reflexive in its weak form. -/
theorem Timestamp.le_refl (a : Timestamp) : Timestamp.le a a := by
  simp only [Timestamp.lt, Timestamp.le]; omega

/-- Weak transitivity. -/
theorem Timestamp.le_trans {a b c : Timestamp} (h1 : Timestamp.le a b)
    (h2 : Timestamp.le b c) : Timestamp.le a c := by
  simp only [Timestamp.lt, Timestamp.le] at *; omega

/-- A strict bound is also a weak bound. -/
theorem Timestamp.le_of_lt {a b : Timestamp} (h : Timestamp.lt a b) :
    Timestamp.le a b := by
  simp only [Timestamp.lt, Timestamp.le] at *; omega

/-- Totality: failing `a ≤ b` is exactly `b < a`. -/
theorem Timestamp.not_le_iff {a b : Timestamp} :
    ¬ Timestamp.le a b ↔ Timestamp.lt b a := by
  simp only [Timestamp.le, not_not]

end OrderLemmas

/-- Claim C4: the derived lexicographic order is claimed to agree with
comparing `total_miliseconds()`.  It does not: `total_miliseconds`
multiplies hours by 360000 (one decimal order short of 3600000), so
01:00:00,000 is lexicographically greater than 00:07:00,000 yet has the
smaller `total_miliseconds` value (360000 < 420000). -/
theorem c4_total_miliseconds_mismatch :
    Timestamp.lt ⟨0, 7, 0, 0⟩ ⟨1, 0, 0, 0⟩
    ∧ Timestamp.total_miliseconds ⟨1, 0, 0, 0⟩ <
        Timestamp.total_miliseconds ⟨0, 7, 0, 0⟩ := by decide

/-- Claim C8, counterexample: `new` is claimed to normalize every unsigned
input while preserving the total duration, but the u32 carry addition
`seconds += miliseconds / 1000` wraps: `new(0, 0, 4294967295, 1000)`
returns the zero timestamp, whose total duration differs from the input
total. -/
theorem c8_new_counterexample :
    Timestamp.new 0 0 4294967295 1000 = ⟨0, 0, 0, 0⟩
    ∧ to_miliseconds 0 0 4294967295 1000 ≠ to_miliseconds 0 0 0 0 := by decide

/-- Claim C8, amended: whenever the three upward carry additions stay
below the u32 modulus, `Timestamp::new` returns a value satisfying the
field invariants and representing the same total duration. -/
theorem c8_new_carries (h m s ms : Nat)
    (hs : s + ms / 1000 < u32Mod)
    (hm : m + (s + ms / 1000) / 60 < u32Mod)
    (hh : h + (m + (s + ms / 1000) / 60) / 60 < u32Mod) :
    (Timestamp.new h m s ms).valid
    ∧ (Timestamp.new h m s ms).toTotal = to_miliseconds h m s ms := by
  simp only [Timestamp.new, Timestamp.valid, Timestamp.toTotal, to_miliseconds, u32Mod] at *
  split_ifs <;> refine ⟨⟨?_, ?_, ?_⟩, ?_⟩ <;> omega

/-- Claim C8, witness: the carry example from the source documentation,
`new(1, 120, 120, 1000)`, normalizes with its total duration preserved. -/
theorem c8_new_witness :
    (Timestamp.new 1 120 120 1000).valid
    ∧ (Timestamp.new 1 120 120 1000).toTotal = to_miliseconds 1 120 120 1000 :=
  c8_new_carries 1 120 120 1000 (by decide) (by decide) (by decide)

/-- Claim C7, counterexample: for `a < b` the subtraction is claimed to
return a recoverable `NegativeDuration` error; the source instead
executes `panic!` (a process abort), and its return channel carries no
error value at all. -/
theorem c7_sub_counterexample :
    Timestamp.sub ⟨0, 0, 0, 0⟩ ⟨0, 0, 0, 1⟩ = RustResult.panicked negativeDurationMsg
    ∧ (Timestamp.sub ⟨0, 0, 0, 0⟩ ⟨0, 0, 0, 1⟩).isErr = false := by decide

set_option maxHeartbeats 2000000 in
/-- Claim C7, amended: for `a < b` the subtraction panics (process abort,
never a silently clamped value); for `a ≥ b` it returns the field-wise
borrow difference, which satisfies the field invariants and is exact:
`(a - b) + b = a` on total milliseconds. -/
theorem c7_sub_spec (a b : Timestamp) :
    (Timestamp.lt a b → Timestamp.sub a b = RustResult.panicked negativeDurationMsg)
    ∧ (Timestamp.valid a → Timestamp.valid b → ¬ Timestamp.lt a b →
        ∃ d, Timestamp.sub a b = RustResult.ok d ∧ d.valid
          ∧ d.toTotal + b.toTotal = a.toTotal) := by
  constructor
  · intro h
    simp only [Timestamp.sub, if_pos h]
  · intro hva hvb hlt
    simp only [Timestamp.sub, if_neg hlt]
    refine ⟨_, rfl, ?_⟩
    simp only [Timestamp.valid, Timestamp.toTotal, to_miliseconds, Timestamp.lt] at *
    split_ifs <;> refine ⟨⟨?_, ?_, ?_⟩, ?_⟩ <;> first | trivial | omega

/-- Claim C7, witness: a concrete subtraction in the panicking branch. -/
theorem c7_sub_witness :
    Timestamp.sub ⟨1, 0, 0, 0⟩ ⟨2, 0, 0, 0⟩ = RustResult.panicked negativeDurationMsg :=
  (c7_sub_spec ⟨1, 0, 0, 0⟩ ⟨2, 0, 0, 0⟩).1 (by decide)

set_option maxHeartbeats 1000000 in
/-- Claim C10: on valid timestamps whose hours sum stays below the u32
modulus, the compound assignment forms agree with the binary operators:
`a += b` leaves `a` equal to `a + b`, and (`SubAssign` being textually
the same borrow algorithm as `Sub`) `a -= b` leaves `a` equal to
`a - b`. -/
theorem c10_assign_agrees (a b : Timestamp)
    (hva : Timestamp.valid a) (hvb : Timestamp.valid b)
    (hh : a.hours + b.hours < u32Mod) :
    Timestamp.addAssign a b = Timestamp.add a b
    ∧ (¬ Timestamp.lt a b → Timestamp.subAssign a b = Timestamp.sub a b) := by
  constructor
  · simp only [Timestamp.addAssign, Timestamp.add, Timestamp.valid, u32Mod] at *
    split_ifs <;> simp only [Timestamp.mk.injEq] <;>
      refine ⟨?_, ?_, ?_, ?_⟩ <;> first | trivial | omega
  · intro _
    rfl

/-- Claim C10, witness: the carry-heavy example from the source tests. -/
theorem c10_assign_witness :
    Timestamp.addAssign ⟨0, 59, 59, 999⟩ ⟨0, 0, 0, 1⟩ = Timestamp.add ⟨0, 59, 59, 999⟩ ⟨0, 0, 0, 1⟩
    ∧ Timestamp.subAssign ⟨0, 59, 59, 999⟩ ⟨0, 0, 0, 1⟩ = Timestamp.sub ⟨0, 59, 59, 999⟩ ⟨0, 0, 0, 1⟩ :=
  ⟨(c10_assign_agrees ⟨0, 59, 59, 999⟩ ⟨0, 0, 0, 1⟩ (by decide) (by decide) (by decide)).1,
   (c10_assign_agrees ⟨0, 59, 59, 999⟩ ⟨0, 0, 0, 1⟩ (by decide) (by decide) (by decide)).2 (by decide)⟩

/-- `SubLine` from `subline.rs`: one subtitle cue.  The Rust field `end`
is a Lean keyword, hence the quoted name. -/
structure SubLine where
  index : Nat
  start : Timestamp
  «end» : Timestamp
  text : Text
deriving DecidableEq

/-- Default element used by the `getD` accesses in statements. -/
def dummyLine : SubLine := ⟨0, ⟨0, 0, 0, 0⟩, ⟨0, 0, 0, 0⟩, []⟩

/-- `Subtitles` (subtitles.rs:12-15): a vector of cues. -/
structure Subtitles where
  inner : List SubLine
deriving DecidableEq

/-- Debug-build message of an unsigned-subtraction underflow. -/
def usizeUnderflowMsg : String := "attempt to subtract with overflow"

/-- Panic message of `Option::unwrap` on `None` (hit in release builds,
where the index wraps instead of aborting at the subtraction). -/
def unwrapNoneMsg : String := "called Option unwrap on a None value"

/-- Loop of `Subtitles::by_time` (subtitles.rs:87-98), with an explicit
fuel argument (the search interval shrinks every iteration, so any fuel
above `max + 1 - min` is enough; the fuel-exhausted branch is
unreachable from the entry points).  The step `max = guess_index - 1`
underflows the unsigned index when `guess_index` is 0 and aborts the
process, which the model returns as `panicked`. -/
def byTimeLoop : Nat → List SubLine → Timestamp → Nat → Nat → RustResult (Option SubLine)
  | 0, _, _, _, _ => .panicked "loop fuel exhausted"
  | fuel + 1, inner, time, min, max =>
    if max < min then .ok none
    else
      match inner[(max + min) / 2]? with
      | none => .panicked unwrapNoneMsg
      | some guess =>
        if Timestamp.le guess.start time ∧ Timestamp.le time guess.«end» then
          .ok (some guess)
        else if Timestamp.lt guess.«end» time then
          byTimeLoop fuel inner time ((max + min) / 2 + 1) max
        else if (max + min) / 2 = 0 then
          .panicked usizeUnderflowMsg
        else
          byTimeLoop fuel inner time min ((max + min) / 2 - 1)

/-- Loop of `Subtitles::nearest_by_time` (subtitles.rs:140-152): same body
as `byTimeLoop`, but falling out of the loop returns `inner.get(max)`
instead of `None`. -/
def nearestLoop : Nat → List SubLine → Timestamp → Nat → Nat → RustResult (Option SubLine)
  | 0, _, _, _, _ => .panicked "loop fuel exhausted"
  | fuel + 1, inner, time, min, max =>
    if max < min then .ok inner[max]?
    else
      match inner[(max + min) / 2]? with
      | none => .panicked unwrapNoneMsg
      | some guess =>
        if Timestamp.le guess.start time ∧ Timestamp.le time guess.«end» then
          .ok (some guess)
        else if Timestamp.lt guess.«end» time then
          nearestLoop fuel inner time ((max + min) / 2 + 1) max
        else if (max + min) / 2 = 0 then
          .panicked usizeUnderflowMsg
        else
          nearestLoop fuel inner time min ((max + min) / 2 - 1)

/-- `Subtitles::by_time` (subtitles.rs:82-100).  `let mut max =
self.inner.len() - 1` underflows on an empty container (abort). -/
def Subtitles.by_time (s : Subtitles) (time : Timestamp) : RustResult (Option SubLine) :=
  if s.inner.length = 0 then .panicked usizeUnderflowMsg
  else byTimeLoop (s.inner.length + 1) s.inner time 0 (s.inner.length - 1)

/-- `Subtitles::nearest_by_time` (subtitles.rs:135-153). -/
def Subtitles.nearest_by_time (s : Subtitles) (time : Timestamp) : RustResult (Option SubLine) :=
  if s.inner.length = 0 then .panicked usizeUnderflowMsg
  else nearestLoop (s.inner.length + 1) s.inner time 0 (s.inner.length - 1)

/-- `impl From<Vec<SubLine>> for Subtitles` (subtitles.rs:261-265): wraps
the vector unchanged; no validation of any kind. -/
def Subtitles.fromVec (vec : List SubLine) : Subtitles := ⟨vec⟩

/-- One unfolding step of `byTimeLoop`. -/
theorem byTimeLoop_succ (fuel : Nat) (inner : List SubLine) (time : Timestamp)
    (min max : Nat) :
    byTimeLoop (fuel + 1) inner time min max =
      if max < min then .ok none
      else
        match inner[(max + min) / 2]? with
        | none => .panicked unwrapNoneMsg
        | some guess =>
          if Timestamp.le guess.start time ∧ Timestamp.le time guess.«end» then
            .ok (some guess)
          else if Timestamp.lt guess.«end» time then
            byTimeLoop fuel inner time ((max + min) / 2 + 1) max
          else if (max + min) / 2 = 0 then
            .panicked usizeUnderflowMsg
          else
            byTimeLoop fuel inner time min ((max + min) / 2 - 1) := rfl

/-- One unfolding step of `nearestLoop`. -/
theorem nearestLoop_succ (fuel : Nat) (inner : List SubLine) (time : Timestamp)
    (min max : Nat) :
    nearestLoop (fuel + 1) inner time min max =
      if max < min then .ok inner[max]?
      else
        match inner[(max + min) / 2]? with
        | none => .panicked unwrapNoneMsg
        | some guess =>
          if Timestamp.le guess.start time ∧ Timestamp.le time guess.«end» then
            .ok (some guess)
          else if Timestamp.lt guess.«end» time then
            nearestLoop fuel inner time ((max + min) / 2 + 1) max
          else if (max + min) / 2 = 0 then
            .panicked usizeUnderflowMsg
          else
            nearestLoop fuel inner time min ((max + min) / 2 - 1) := rfl

/-- A cue on [0s, 10s], used in concrete query evaluations. -/
def lineA : SubLine := ⟨1, ⟨0, 0, 0, 0⟩, ⟨0, 0, 10, 0⟩, []⟩

/-- A cue on [10s, 20s], adjacent to `lineA` at the shared boundary 10s. -/
def lineB : SubLine := ⟨2, ⟨0, 0, 10, 0⟩, ⟨0, 0, 20, 0⟩, []⟩

/-- A cue on [30s, 40s]. -/
def lineC : SubLine := ⟨3, ⟨0, 0, 30, 0⟩, ⟨0, 0, 40, 0⟩, []⟩

/-- Claim C2: `byTime` is claimed to return nothing on the empty container
and for `t` below the first cue's start.  Instead, `self.inner.len() - 1`
underflows on the empty container, and `max = guess_index - 1` underflows
once the search reaches position 0 with `t` below the first start; both
abort the process (debug: overflow panic; release: the wrapped index hits
the `unwrap` of an out-of-bounds `get`). -/
theorem c2_by_time_underflow :
    Subtitles.by_time ⟨[]⟩ ⟨0, 0, 5, 0⟩ = RustResult.panicked usizeUnderflowMsg
    ∧ Subtitles.by_time ⟨[lineB]⟩ ⟨0, 0, 5, 0⟩ = RustResult.panicked usizeUnderflowMsg
    ∧ Subtitles.by_time ⟨[lineB, lineC]⟩ ⟨0, 0, 5, 0⟩
        = RustResult.panicked usizeUnderflowMsg := by decide

/-- Claim C6, counterexample: querying the shared boundary 10s of the
adjacent cues `lineA`/`lineB`: in the two-cue container `nearestByTime`
returns cue A (the claim demands cue B), and in a three-cue container
`byTime` returns cue B (the claim demands cue A) — whichever cue the
binary search probes first wins, for both queries. -/
theorem c6_boundary_counterexample :
    Subtitles.nearest_by_time ⟨[lineA, lineB]⟩ ⟨0, 0, 10, 0⟩ = RustResult.ok (some lineA)
    ∧ Subtitles.by_time ⟨[lineA, lineB, lineC]⟩ ⟨0, 0, 10, 0⟩
        = RustResult.ok (some lineB) := by decide

/-- Claim C6, amended: both queries treat cue ranges inclusively, so a tie
at a shared boundary resolves to whichever of the two cues the binary
search probes first.  In a container holding exactly the two adjacent
cues A and B, the first probe is position 0, so `byTime` returns cue A as
claimed but `nearestByTime` also returns cue A, not cue B. -/
theorem c6_boundary_two_cues (A B : SubLine)
    (h1 : Timestamp.le A.start A.«end») (h2 : A.«end» = B.start) :
    Subtitles.by_time ⟨[A, B]⟩ A.«end» = RustResult.ok (some A)
    ∧ Subtitles.nearest_by_time ⟨[A, B]⟩ A.«end» = RustResult.ok (some A) := by
  have hle : Timestamp.le A.«end» A.«end» := Timestamp.le_refl _
  constructor
  · unfold Subtitles.by_time
    norm_num
    rw [show (3 : Nat) = 2 + 1 from rfl, byTimeLoop_succ]
    norm_num [h1, hle]
  · unfold Subtitles.nearest_by_time
    norm_num
    rw [show (3 : Nat) = 2 + 1 from rfl, nearestLoop_succ]
    norm_num [h1, hle]

/-- Claim C6, witness: the generic two-cue boundary theorem applied to the
concrete adjacent cues `lineA` and `lineB`. -/
theorem c6_boundary_witness :
    Subtitles.by_time ⟨[lineA, lineB]⟩ lineA.«end» = RustResult.ok (some lineA)
    ∧ Subtitles.nearest_by_time ⟨[lineA, lineB]⟩ lineA.«end» = RustResult.ok (some lineA) :=
  c6_boundary_two_cues lineA lineB (by decide) (by decide)

/-- From per-cue `start ≤ end` and adjacent strict disjointness, any earlier
cue ends strictly before any later cue starts. -/
theorem sorted_chain (inner : List SubLine)
    (hse : ∀ i, i < inner.length →
      Timestamp.le (inner.getD i dummyLine).start (inner.getD i dummyLine).«end»)
    (hadj : ∀ i, i + 1 < inner.length →
      Timestamp.lt (inner.getD i dummyLine).«end» (inner.getD (i + 1) dummyLine).start) :
    ∀ i j, i < j → j < inner.length →
      Timestamp.lt (inner.getD i dummyLine).«end» (inner.getD j dummyLine).start := by
  intro i j
  induction j with
  | zero => omega
  | succ j ihj =>
    intro hij hj
    rcases Nat.lt_succ_iff_lt_or_eq.mp hij with h | h
    · have h1 := ihj h (by omega)
      have h2 := hse j (by omega)
      have h3 := hadj j (by omega)
      exact Timestamp.lt_trans (Timestamp.lt_of_lt_of_le h1 h2) h3
    · subst h
      exact hadj i hj

/-- Unfolding step of `nearestLoop` when the probe succeeds. -/
theorem nearestLoop_step (fuel : Nat) (inner : List SubLine) (time : Timestamp)
    (min max : Nat) (guess : SubLine) (hnot : ¬ max < min)
    (h : inner[(max + min) / 2]? = some guess) :
    nearestLoop (fuel + 1) inner time min max =
      if Timestamp.le guess.start time ∧ Timestamp.le time guess.«end» then
        RustResult.ok (some guess)
      else if Timestamp.lt guess.«end» time then
        nearestLoop fuel inner time ((max + min) / 2 + 1) max
      else if (max + min) / 2 = 0 then
        RustResult.panicked usizeUnderflowMsg
      else
        nearestLoop fuel inner time min ((max + min) / 2 - 1) := by
  rw [nearestLoop_succ, if_neg hnot, h]

/-- Invariant correctness of the `nearest_by_time` loop: if everything left
of `min` ends before `t`, everything right of `max` starts after `t`, and
`t` is at or after the first start whenever `min = 0`, the loop returns the
cue at the greatest position whose start is at or before `t`. -/
theorem nearestLoop_spec (fuel : Nat) :
    ∀ (inner : List SubLine) (t : Timestamp) (min max : Nat),
    max + 2 - min ≤ fuel → min ≤ max + 1 → max < inner.length →
    (∀ i, i < inner.length →
      Timestamp.le (inner.getD i dummyLine).start (inner.getD i dummyLine).«end») →
    (∀ i, i + 1 < inner.length →
      Timestamp.lt (inner.getD i dummyLine).«end» (inner.getD (i + 1) dummyLine).start) →
    (min = 0 → Timestamp.le (inner.getD 0 dummyLine).start t) →
    (∀ i, i < min → Timestamp.lt (inner.getD i dummyLine).«end» t) →
    (∀ j, max < j → j < inner.length → Timestamp.lt t (inner.getD j dummyLine).start) →
    ∃ k, k < inner.length ∧ Timestamp.le (inner.getD k dummyLine).start t
      ∧ (∀ j, j < inner.length → Timestamp.le (inner.getD j dummyLine).start t → j ≤ k)
      ∧ nearestLoop fuel inner t min max = RustResult.ok (some (inner.getD k dummyLine)) := by
  induction fuel with
  | zero =>
    intro inner t min max hfuel hminmax hmax hse hadj hguard hlow hhigh
    omega
  | succ fuel ih =>
    intro inner t min max hfuel hminmax hmax hse hadj hguard hlow hhigh
    have hchain := sorted_chain inner hse hadj
    by_cases hexit : max < min
    · rw [nearestLoop_succ, if_pos hexit]
      have hmaxeq : inner[max]? = some (inner.getD max dummyLine) := by
        rw [List.getElem?_eq_getElem hmax, List.getD_eq_getElem _ _ hmax]
      refine ⟨max, hmax, ?_, ?_, by rw [hmaxeq]⟩
      · exact Timestamp.le_of_lt
          (Timestamp.lt_of_le_of_lt (hse max hmax) (hlow max hexit))
      · intro j hj hjle
        by_contra hcon
        push_neg at hcon
        exact hjle (hhigh j hcon hj)
    · have hg1 : min ≤ (max + min) / 2 := by omega
      have hg2 : (max + min) / 2 ≤ max := by omega
      have hglen : (max + min) / 2 < inner.length := by omega
      have hsome : inner[(max + min) / 2]? =
          some (inner.getD ((max + min) / 2) dummyLine) := by
        rw [List.getElem?_eq_getElem hglen, List.getD_eq_getElem _ _ hglen]
      rw [nearestLoop_step fuel inner t min max _ hexit hsome]
      by_cases hcond1 :
          Timestamp.le (inner.getD ((max + min) / 2) dummyLine).start t
          ∧ Timestamp.le t (inner.getD ((max + min) / 2) dummyLine).«end»
      · rw [if_pos hcond1]
        refine ⟨(max + min) / 2, hglen, hcond1.1, ?_, rfl⟩
        intro j hj hjle
        by_contra hcon
        push_neg at hcon
        exact hjle (Timestamp.lt_of_le_of_lt hcond1.2 (hchain _ j hcon hj))
      · rw [if_neg hcond1]
        by_cases hcond2 : Timestamp.lt (inner.getD ((max + min) / 2) dummyLine).«end» t
        · rw [if_pos hcond2]
          have hlow2 : ∀ i, i < (max + min) / 2 + 1 →
              Timestamp.lt (inner.getD i dummyLine).«end» t := by
            intro i hi
            by_cases hie : i = (max + min) / 2
            · subst hie; exact hcond2
            · exact Timestamp.lt_trans
                (Timestamp.lt_of_lt_of_le (hchain i _ (by omega) hglen) (hse _ hglen))
                hcond2
          obtain ⟨k, hk1, hk2, hk3, hk4⟩ := ih inner t ((max + min) / 2 + 1) max
            (by omega) (by omega) hmax hse hadj
            (fun h => absurd h (by omega)) hlow2 hhigh
          exact ⟨k, hk1, hk2, hk3, hk4⟩
        · rw [if_neg hcond2]
          have hts : Timestamp.lt t (inner.getD ((max + min) / 2) dummyLine).start := by
            have h1 : Timestamp.le t (inner.getD ((max + min) / 2) dummyLine).«end» := hcond2
            have h2 : ¬ Timestamp.le (inner.getD ((max + min) / 2) dummyLine).start t :=
              fun hle => hcond1 ⟨hle, h1⟩
            exact Timestamp.not_le_iff.mp h2
          by_cases hzero : (max + min) / 2 = 0
          · exfalso
            have hmin0 : min = 0 := by omega
            have hg0 := hguard hmin0
            rw [hzero] at hts
            exact hg0 hts
          · rw [if_neg hzero]
            have hhigh2 : ∀ j, (max + min) / 2 - 1 < j → j < inner.length →
                Timestamp.lt t (inner.getD j dummyLine).start := by
              intro j hj hjlen
              by_cases hje : j = (max + min) / 2
              · subst hje; exact hts
              · have hgj : (max + min) / 2 < j := by omega
                exact Timestamp.lt_of_lt_of_le hts
                  (Timestamp.le_of_lt
                    (Timestamp.lt_of_le_of_lt (hse _ hglen) (hchain _ j hgj hjlen)))
            obtain ⟨k, hk1, hk2, hk3, hk4⟩ := ih inner t min ((max + min) / 2 - 1)
              (by omega) (by omega) (by omega) hse hadj hguard hlow hhigh2
            exact ⟨k, hk1, hk2, hk3, hk4⟩

/-- Claim C5, amended: on a nonempty container of cues with `start ≤ end`,
sorted with strictly disjoint ranges, and a query `t` at or after the
first cue's start, `nearest_by_time` returns the cue at the greatest
position whose start is ≤ `t`.  In particular a query past the last cue's
end returns the last cue, not nothing (see the counterexample), and a
query below the first start aborts in the same index underflow as
`by_time` rather than returning nothing. -/
theorem c5_nearest_spec (s : Subtitles) (t : Timestamp)
    (hne : s.inner ≠ [])
    (hse : ∀ i, i < s.inner.length →
      Timestamp.le (s.inner.getD i dummyLine).start (s.inner.getD i dummyLine).«end»)
    (hadj : ∀ i, i + 1 < s.inner.length →
      Timestamp.lt (s.inner.getD i dummyLine).«end» (s.inner.getD (i + 1) dummyLine).start)
    (hstart : Timestamp.le (s.inner.getD 0 dummyLine).start t) :
    ∃ k, k < s.inner.length ∧ Timestamp.le (s.inner.getD k dummyLine).start t
      ∧ (∀ j, j < s.inner.length → Timestamp.le (s.inner.getD j dummyLine).start t → j ≤ k)
      ∧ s.nearest_by_time t = RustResult.ok (some (s.inner.getD k dummyLine)) := by
  have hlen : s.inner.length ≠ 0 := fun h => hne (List.length_eq_zero.mp h)
  rw [Subtitles.nearest_by_time, if_neg hlen]
  exact nearestLoop_spec (s.inner.length + 1) s.inner t 0 (s.inner.length - 1)
    (by omega) (by omega) (by omega) hse hadj (fun _ => hstart)
    (by omega) (fun j hj hjlen => absurd hjlen (by omega))

/-- Claim C5, counterexample: with the single cue `lineA` ending at 10s, a
query at 30s — after the last cue's end, where the claim requires nothing
— returns the last cue. -/
theorem c5_nearest_counterexample :
    Subtitles.nearest_by_time ⟨[lineA]⟩ ⟨0, 0, 30, 0⟩ = RustResult.ok (some lineA)
    ∧ Timestamp.lt lineA.«end» ⟨0, 0, 30, 0⟩ := by decide

/-- Claim C5, witness: a query in the gap between two cues returns the
earlier cue (greatest start at or before the query). -/
theorem c5_nearest_witness :
    Subtitles.nearest_by_time ⟨[lineA, lineC]⟩ ⟨0, 0, 20, 0⟩ = RustResult.ok (some lineA) := by
  obtain ⟨k, hk1, hk2, -, hk4⟩ := c5_nearest_spec ⟨[lineA, lineC]⟩ ⟨0, 0, 20, 0⟩
    (by decide)
    (by intro i hi; simp only [Subtitles.mk.injEq, List.length_cons, List.length_nil] at hi
        interval_cases i <;> decide)
    (by intro i hi; simp only [Subtitles.mk.injEq, List.length_cons, List.length_nil] at hi
        have hi0 : i = 0 := by omega
        subst hi0; decide)
    (by decide)
  simp only [Subtitles.mk.injEq, List.length_cons, List.length_nil] at hk1
  interval_cases k
  · exact hk4
  · exact absurd hk2 (by decide)

/-- Whitespace test for the class `\s` of the regex crate (ASCII
whitespace, NEL and NBSP; the rarely used Unicode `Zs` points above
U+00A0 are omitted from the model). -/
def isWsp (c : Nat) : Bool := c = 32 || (9 ≤ c && c ≤ 13) || c = 133 || c = 160

/-- Decimal digit test for the regex class `\d`. -/
def isDigitC (c : Nat) : Bool := 48 ≤ c && c ≤ 57

/-- Effect of `EOF_EMPTY_LINES.replacen(content, 1, "\r\n\r\n")`
(utils.rs:15, pattern `\s*?\z`): the leftmost match of the pattern is the
maximal all-whitespace suffix (empty when the text ends with
non-whitespace), which the call replaces by CRLF CRLF exactly once. -/
def stripTrailingWsp (t : Text) : Text := (t.reverse.dropWhile isWsp).reverse

/-- Effect of `UNIFY_NEWLINE_STYLE.replace_all(..., "\r\n")`
(utils.rs:16, pattern `(?:\r\n|\n)`): scanning left to right, a CRLF pair
is kept as is and a lone LF becomes CRLF; a CR not followed by LF is
untouched. -/
def unify : Text → Text
  | [] => []
  | [c] => if c = 10 then [13, 10] else [c]
  | c :: d :: r =>
    if c = 13 ∧ d = 10 then 13 :: 10 :: unify r
    else if c = 10 then 13 :: 10 :: unify (d :: r)
    else c :: unify (d :: r)

/-- `prepare` (utils.rs:14-17): strip the trailing-whitespace suffix and
terminate with CRLF CRLF, then normalize the line endings. -/
def prepare (t : Text) : Text := unify (stripTrailingWsp t ++ [13, 10, 13, 10])

/-- Maximal run of leading digits and the remaining text (`\d+`). -/
def takeDigits : Text → (Text × Text)
  | [] => ([], [])
  | c :: r =>
    if isDigitC c then
      let p := takeDigits r
      (c :: p.1, p.2)
    else ([], c :: r)

/-- Numeric value of a digit string (`str::parse`). -/
def digitsToNat (ds : Text) : Nat := ds.foldl (fun a c => a * 10 + (c - 48)) 0

/-- Match a literal prefix and return the rest. -/
def parseLit : Text → Text → Option Text
  | [], t => some t
  | _ :: _, [] => none
  | c :: ls, d :: t => if c = d then parseLit ls t else none

/-- Match exactly two digits (`\d{2}`). -/
def parse2 : Text → Option (Nat × Text)
  | c1 :: c2 :: r =>
    if isDigitC c1 && isDigitC c2 then some ((c1 - 48) * 10 + (c2 - 48), r) else none
  | _ => none

/-- Match exactly three digits (`\d{3}`). -/
def parse3 : Text → Option (Nat × Text)
  | c1 :: c2 :: c3 :: r =>
    if isDigitC c1 && isDigitC c2 && isDigitC c3 then
      some (((c1 - 48) * 10 + (c2 - 48)) * 10 + (c3 - 48), r)
    else none
  | _ => none

/-- Match one whitespace character (`\s`). -/
def parseWs1 : Text → Option Text
  | [] => none
  | c :: r => if isWsp c then some r else none

/-- Lazy text capture up to the first CRLF CRLF
(`([\S\s]*?)(?:\r\n){2}?`): the captured text and what follows the
terminator. -/
def splitAtTerm : Text → Option (Text × Text)
  | [] => none
  | c :: rest =>
    if c = 13 ∧ rest.take 3 = [10, 13, 10] then some ([], rest.drop 3)
    else (splitAtTerm rest).map fun p => (c :: p.1, p.2)

/-- One capture of the block regex `SUBS` (utils.rs:24-32): index digits
and the eight fixed-width time fields, plus the text block. -/
structure RawBlock where
  index : Nat
  sh : Nat
  sm : Nat
  ss : Nat
  sms : Nat
  eh : Nat
  em : Nat
  es : Nat
  ems : Nat
  text : Text
deriving DecidableEq

/-- Match `\d{2}:\d{2}:\d{2},\d{3}`. -/
def parseTsText (t : Text) : Option ((Nat × Nat × Nat × Nat) × Text) :=
  (parse2 t).bind fun p1 =>
  (parseLit [58] p1.2).bind fun r2 =>
  (parse2 r2).bind fun p2 =>
  (parseLit [58] p2.2).bind fun r4 =>
  (parse2 r4).bind fun p3 =>
  (parseLit [44] p3.2).bind fun r6 =>
  (parse3 r6).map fun p4 => ((p1.1, p2.1, p3.1, p4.1), p4.2)

/-- Try to match one whole block of the `SUBS` regex at the current
position; on success return the capture and the text after the block. -/
def matchBlockAt (t : Text) : Option (RawBlock × Text) :=
  let p := takeDigits t
  if p.1.isEmpty then none
  else
    (parseLit [13, 10] p.2).bind fun r2 =>
    (parseTsText r2).bind fun q1 =>
    (parseWs1 q1.2).bind fun r4 =>
    (parseLit [45, 45, 62] r4).bind fun r5 =>
    (parseWs1 r5).bind fun r6 =>
    (parseTsText r6).bind fun q2 =>
    (parseLit [13, 10] q2.2).bind fun r8 =>
    (splitAtTerm r8).map fun q3 =>
    (⟨digitsToNat p.1, q1.1.1, q1.1.2.1, q1.1.2.2.1, q1.1.2.2.2,
       q2.1.1, q2.1.2.1, q2.1.2.2.1, q2.1.2.2.2, q3.1⟩, q3.2)

/-- `SUBS.captures_iter`: non-overlapping leftmost matches, scanning one
character forward when no block starts at the current position.  Fueled
structural recursion; fuel `t.length` always suffices since a match
consumes at least one character. -/
def scanBlocks : Nat → Text → List RawBlock
  | 0, _ => []
  | fuel + 1, t =>
    match t with
    | [] => []
    | c :: rest =>
      match matchBlockAt (c :: rest) with
      | some q => q.1 :: scanBlocks fuel q.2
      | none => scanBlocks fuel rest

/-- All block captures of a text. -/
def scanBlocksAll (t : Text) : List RawBlock := scanBlocks t.length t

/-- `check` (utils.rs:19-21): `SUBS.is_match`, i.e. at least one block
capture exists. -/
def check (t : Text) : Bool := !(scanBlocksAll t).isEmpty

/-- Building one `SubLine` from a capture (subtitles.rs:232-253):
the parsed fields go through `Timestamp::from`, i.e. `Timestamp::new`. -/
def mkLine (b : RawBlock) : SubLine :=
  ⟨b.index, Timestamp.new b.sh b.sm b.ss b.sms, Timestamp.new b.eh b.em b.es b.ems, b.text⟩

/-- Panic message of `Result::unwrap` on an `Err` (hit by
`parse::<u32>().unwrap()` when a numeral overflows u32). -/
def unwrapErrMsg : String := "called Result unwrap on an Err value"

/-- `impl FromStr for Subtitles` (subtitles.rs:220-259): collects every
capture in scan order and wraps the vector.  The index capture goes
through `parse::<u32>().unwrap()` (subtitles.rs:232), which aborts the
whole call on a numeral above `u32::MAX` (the time captures are two and
three digits wide and cannot overflow); since that panic ends the run no
matter which block triggers it, the model checks all captures at once.
When no index overflows, the result is always `Ok` - there is no
validation of any kind and no error return. -/
def from_str (t : Text) : RustResult Subtitles :=
  if (scanBlocksAll t).all (fun b => decide (b.index < u32Mod)) then
    .ok ⟨(scanBlocksAll t).map mkLine⟩
  else .panicked unwrapErrMsg

/-- `Subtitles::from_file` minus the I/O (subtitles.rs:24-33): normalize,
reject when no block matches, then `from_str`. -/
def parse (t : Text) : RustResult Subtitles :=
  let content := prepare t
  if check content then from_str content
  else .err "Given file does not match with srt format specification"

/-- Little-endian digits of `n` (fueled; any fuel at or above `n` works). -/
def digitsRevAux : Nat → Nat → Text
  | 0, _ => []
  | fuel + 1, n => if n = 0 then [] else (48 + n % 10) :: digitsRevAux fuel (n / 10)

/-- Decimal rendering of `n` (`{}` for an unsigned integer). -/
def natDigits (n : Nat) : Text := if n = 0 then [48] else (digitsRevAux n n).reverse

/-- Zero-padded two-digit rendering (`{:02}`); numbers of three or more
digits are printed in full. -/
def pad2 (n : Nat) : Text := if n < 100 then [48 + n / 10, 48 + n % 10] else natDigits n

/-- Zero-padded three-digit rendering (`{:03}`). -/
def pad3 (n : Nat) : Text :=
  if n < 1000 then [48 + n / 100, 48 + n / 10 % 10, 48 + n % 10] else natDigits n

/-- Rendering of one timestamp in `HH:MM:SS,mmm` form. -/
def renderTs (ts : Timestamp) : Text :=
  pad2 ts.hours ++ [58] ++ pad2 ts.minutes ++ [58] ++ pad2 ts.seconds ++ [44]
    ++ pad3 ts.miliseconds

/-- `impl Display for SubLine` (subline.rs:13-30):
`{index}\r\n{start} --> {end}\r\n{text}\r\n\r\n`. -/
def renderLine (l : SubLine) : Text :=
  natDigits l.index ++ [13, 10] ++ renderTs l.start ++ [32, 45, 45, 62, 32]
    ++ renderTs l.«end» ++ [13, 10] ++ l.text ++ [13, 10, 13, 10]

/-- `impl Display for Subtitles` (subtitles.rs:294-302): every line in
order, then one extra `\r\n\r\n`. -/
def render (s : Subtitles) : Text := (s.inner.map renderLine).flatten ++ [13, 10, 13, 10]

/-- The text `5\r\n00:00:00,000 --> 00:00:01,000\r\nx\r\n\r\n`: a single
well-formed block whose index line reads 5 instead of 1. -/
def badIndexText : Text :=
  [53, 13, 10, 48, 48, 58, 48, 48, 58, 48, 48, 44, 48, 48, 48, 32, 45, 45, 62, 32,
   48, 48, 58, 48, 48, 58, 48, 49, 44, 48, 48, 48, 13, 10, 120, 13, 10, 13, 10]

/-- Claim C3, counterexample: construction does not validate.  Wrapping
the single cue `lineB` (whose index is 2, not 1) succeeds and returns a
value violating the contiguity invariant, and parsing a single-block file
whose index line reads 5 returns `Ok` with the index 5 stored verbatim —
no malformed-file error is surfaced by either entry point. -/
theorem c3_construction_counterexample :
    Subtitles.fromVec [lineB] = ⟨[lineB]⟩
    ∧ ((Subtitles.fromVec [lineB]).inner.getD 0 dummyLine).index ≠ 0 + 1
    ∧ from_str badIndexText
        = RustResult.ok ⟨[⟨5, ⟨0, 0, 0, 0⟩, ⟨0, 0, 1, 0⟩, [120]⟩]⟩ := by decide

/-- The text `4294967296\r\n00:00:00,000 --> 00:00:01,000\r\nx\r\n\r\n`:
a single block whose index numeral exceeds `u32::MAX`. -/
def overflowIndexText : Text :=
  [52, 50, 57, 52, 57, 54, 55, 50, 57, 54, 13, 10,
   48, 48, 58, 48, 48, 58, 48, 48, 44, 48, 48, 48, 32, 45, 45, 62, 32,
   48, 48, 58, 48, 48, 58, 48, 49, 44, 48, 48, 48, 13, 10, 120, 13, 10, 13, 10]

/-- On an over-u32 index numeral `from_str` aborts in the index unwrap
rather than surfacing an error value. -/
theorem from_str_overflow_aborts :
    from_str overflowIndexText = RustResult.panicked unwrapErrMsg := by decide

/-- Claim C3, amended: constructing `Subtitles` performs no validation and
never surfaces a malformed-file error: `From<Vec<SubLine>>` wraps the
vector unchanged, and `from_str` never returns an error value - whenever
every scanned index numeral fits in u32 (always the case for real
subtitle files) it returns `Ok`, storing the parsed indices verbatim; its
only failure is the `unwrap` abort on an over-u32 index numeral, a
process abort rather than a surfaced error.  Invariant violations go
undetected at construction (they surface later, e.g. as the `by_index`
consistency panic). -/
theorem c3_no_validation (v : List SubLine) (t : Text) :
    (Subtitles.fromVec v).inner = v
    ∧ (from_str t).isErr = false
    ∧ ((scanBlocksAll t).all (fun b => decide (b.index < u32Mod)) = true →
        from_str t = RustResult.ok ⟨(scanBlocksAll t).map mkLine⟩) := by
  refine ⟨rfl, ?_, ?_⟩
  · rw [from_str]
    split_ifs <;> rfl
  · intro h
    rw [from_str, if_pos h]

/-- Claim C3, witness: on the concrete index-5 file every scanned index
fits in u32, and `from_str` returns `Ok` with the indices unvalidated. -/
theorem c3_no_validation_witness :
    from_str badIndexText = RustResult.ok ⟨(scanBlocksAll badIndexText).map mkLine⟩ :=
  (c3_no_validation [] badIndexText).2.2 (by decide)

/-- The text `1\r\n00:00:00,000 --> 00:00:01,000\r\nHi\r\n\r\n`: one
well-formed block, already in normalized form. -/
def sampleText : Text :=
  [49, 13, 10, 48, 48, 58, 48, 48, 58, 48, 48, 44, 48, 48, 48, 32, 45, 45, 62, 32,
   48, 48, 58, 48, 48, 58, 48, 49, 44, 48, 48, 48, 13, 10, 72, 105, 13, 10, 13, 10]

/-- The parse of `sampleText`: one cue, 0s to 1s, text `Hi`. -/
def sampleSubs : Subtitles := ⟨[⟨1, ⟨0, 0, 0, 0⟩, ⟨0, 0, 1, 0⟩, [72, 105]⟩]⟩

/-- Claim C1, counterexample: `sampleText` is accepted by `parse` (and is
its own normal form), yet rendering the parsed value does not reproduce
`normalize(sampleText)` — the serializer appends one extra blank line
after the final cue (the source test `to_string` asserts exactly this
extra `\r\n\r\n`). -/
theorem c1_round_trip_counterexample :
    parse sampleText = RustResult.ok sampleSubs
    ∧ prepare sampleText = sampleText
    ∧ render sampleSubs ≠ prepare sampleText
    ∧ render sampleSubs = prepare sampleText ++ [13, 10, 13, 10] := by decide

/-- A literal parses off its own rendering. -/
theorem parseLit_self : ∀ (lit r : Text), parseLit lit (lit ++ r) = some r
  | [], r => rfl
  | c :: ls, r => by
    show parseLit (c :: ls) (c :: (ls ++ r)) = some r
    simp only [parseLit, if_pos rfl]
    exact parseLit_self ls r

/-- Two zero-padded digits parse back to the rendered number. -/
theorem parse2_pad2 (n : Nat) (r : Text) (h : n < 100) :
    parse2 (pad2 n ++ r) = some (n, r) := by
  rw [pad2, if_pos h]
  show parse2 ((48 + n / 10) :: (48 + n % 10) :: r) = some (n, r)
  rw [parse2, if_pos (by simp [isDigitC]; omega)]
  simp only [Option.some.injEq, Prod.mk.injEq]
  exact ⟨by omega, trivial⟩

/-- Three zero-padded digits parse back to the rendered number. -/
theorem parse3_pad3 (n : Nat) (r : Text) (h : n < 1000) :
    parse3 (pad3 n ++ r) = some (n, r) := by
  rw [pad3, if_pos h]
  show parse3 ((48 + n / 100) :: (48 + n / 10 % 10) :: (48 + n % 10) :: r) = some (n, r)
  rw [parse3, if_pos (by simp [isDigitC]; omega)]
  simp only [Option.some.injEq, Prod.mk.injEq]
  exact ⟨by omega, trivial⟩

/-- A rendered `HH:MM:SS,mmm` group parses back to its fields whenever
each colon-separated field fits in two digits and the milliseconds in
three. -/
theorem parseTs_render (ts : Timestamp) (r : Text)
    (hh : ts.hours < 100) (hm : ts.minutes < 100) (hs : ts.seconds < 100)
    (hms : ts.miliseconds < 1000) :
    parseTsText (renderTs ts ++ r)
      = some ((ts.hours, ts.minutes, ts.seconds, ts.miliseconds), r) := by
  rw [parseTsText]
  simp only [renderTs, List.append_assoc]
  rw [parse2_pad2 _ _ hh]
  simp only [Option.some_bind]
  rw [parseLit_self [58]]
  simp only [Option.some_bind]
  rw [parse2_pad2 _ _ hm]
  simp only [Option.some_bind]
  rw [parseLit_self [58]]
  simp only [Option.some_bind]
  rw [parse2_pad2 _ _ hs]
  simp only [Option.some_bind]
  rw [parseLit_self [44]]
  simp only [Option.some_bind]
  rw [parse3_pad3 _ _ hms]
  rfl

/-- All characters produced by `digitsRevAux` are digits. -/
theorem digitsRevAux_digits : ∀ (fuel n : Nat), ∀ c ∈ digitsRevAux fuel n, isDigitC c = true
  | 0, _ => by simp [digitsRevAux]
  | fuel + 1, n => by
    rw [digitsRevAux]
    split_ifs
    · simp
    · intro c hc
      rcases List.mem_cons.mp hc with h | h
      · subst h; simp [isDigitC]; omega
      · exact digitsRevAux_digits fuel (n / 10) c h

/-- All characters of a decimal rendering are digits. -/
theorem natDigits_digits (n : Nat) : ∀ c ∈ natDigits n, isDigitC c = true := by
  rw [natDigits]
  split_ifs
  · simp [isDigitC]
  · intro c hc
    exact digitsRevAux_digits n n c (List.mem_reverse.mp hc)

/-- A decimal rendering is never empty. -/
theorem natDigits_ne_nil (n : Nat) : natDigits n ≠ [] := by
  rw [natDigits]
  split_ifs with h
  · simp
  · have : digitsRevAux n n ≠ [] := by
      cases n with
      | zero => exact absurd rfl h
      | succ m =>
        rw [digitsRevAux, if_neg (by omega)]
        simp
    simpa using this

/-- Value of the little-endian digit list. -/
theorem digitsRevAux_val : ∀ (fuel n : Nat), n ≤ fuel →
    List.foldr (fun c a => a * 10 + (c - 48)) 0 (digitsRevAux fuel n) = n
  | 0, n, h => by
    rw [digitsRevAux]
    simp
    omega
  | fuel + 1, n, h => by
    rw [digitsRevAux]
    split_ifs with h0
    · simp [h0]
    · have ih := digitsRevAux_val fuel (n / 10) (by omega)
      simp only [List.foldr_cons, ih]
      omega

/-- Parsing a decimal rendering returns the original number. -/
theorem digitsToNat_natDigits (n : Nat) : digitsToNat (natDigits n) = n := by
  rw [natDigits]
  split_ifs with h
  · simp [digitsToNat, h]
  · rw [digitsToNat, List.foldl_reverse]
    exact digitsRevAux_val n n (by omega)

/-- The greedy digit scan splits a digit run followed by a non-digit
exactly at the boundary. -/
theorem takeDigits_append : ∀ (ds r : Text), (∀ c ∈ ds, isDigitC c = true) →
    (∀ c, r.head? = some c → isDigitC c = false) → takeDigits (ds ++ r) = (ds, r)
  | [], [], _, _ => rfl
  | [], c :: r, _, hr => by
    show takeDigits (c :: r) = ([], c :: r)
    rw [takeDigits]
    simp [hr c rfl]
  | d :: ds, r, hds, hr => by
    show takeDigits (d :: (ds ++ r)) = (d :: ds, r)
    rw [takeDigits]
    simp only [hds d (by simp), if_true, if_pos]
    rw [takeDigits_append ds r (fun c hc => hds c (by simp [hc])) hr]

/-- When the first CRLF CRLF of `tx ++ CRLF CRLF` is the final terminator,
appending any text that does not begin with CR keeps the split point. -/
theorem splitAtTerm_append : ∀ (tx r : Text),
    splitAtTerm (tx ++ [13, 10, 13, 10]) = some (tx, []) →
    (∀ c, r.head? = some c → c ≠ 13) →
    splitAtTerm (tx ++ [13, 10, 13, 10] ++ r) = some (tx, r)
  | [], r, _, hr => by
    show splitAtTerm (13 :: (10 :: 13 :: 10 :: r)) = some ([], r)
    rw [splitAtTerm, if_pos (by simp)]
    simp
  | c :: tx, r, h, hr => by
    rw [show (c :: tx) ++ [13, 10, 13, 10] = c :: (tx ++ [13, 10, 13, 10]) from rfl,
      splitAtTerm] at h
    have hne : ¬ (c = 13 ∧ (tx ++ [13, 10, 13, 10]).take 3 = [10, 13, 10]) := by
      intro hcon
      rw [if_pos hcon] at h
      simp at h
    rw [if_neg hne] at h
    have h' : splitAtTerm (tx ++ [13, 10, 13, 10]) = some (tx, []) := by
      cases hsp : splitAtTerm (tx ++ [13, 10, 13, 10]) with
      | none => rw [hsp] at h; simp at h
      | some p =>
        rw [hsp] at h
        simp only [Option.map_some', Option.some.injEq, Prod.mk.injEq,
          List.cons.injEq] at h
        exact congrArg some (Prod.ext h.1.2 h.2)
    have ih := splitAtTerm_append tx r h' hr
    have hlen : 3 ≤ (tx ++ [13, 10, 13, 10]).length := by
      simp [List.length_append]
    have hne2 : ¬ (c = 13 ∧ ((tx ++ [13, 10, 13, 10]) ++ r).take 3 = [10, 13, 10]) := by
      rw [List.take_append_of_le_length hlen]
      exact hne
    show splitAtTerm (c :: ((tx ++ [13, 10, 13, 10]) ++ r)) = some (c :: tx, r)
    rw [splitAtTerm, if_neg hne2, ih]
    rfl

/-- CRLF parses off a text beginning with CR LF. -/
theorem parseLit_crlf (r : Text) : parseLit [13, 10] (13 :: 10 :: r) = some r := by
  simp [parseLit]

/-- The arrow literal parses off its own rendering. -/
theorem parseLit_arrow (r : Text) : parseLit [45, 45, 62] (45 :: 45 :: 62 :: r) = some r := by
  simp [parseLit]

/-- A space satisfies the single-whitespace parser. -/
theorem parseWs1_space (r : Text) : parseWs1 (32 :: r) = some r := by
  simp [parseWs1, isWsp]

/-- `splitAtTerm_append` stated on the cons-normalized form. -/
theorem splitAtTerm_append2 (tx r : Text)
    (h : splitAtTerm (tx ++ [13, 10, 13, 10]) = some (tx, []))
    (hr : ∀ c, r.head? = some c → c ≠ 13) :
    splitAtTerm (tx ++ 13 :: 10 :: 13 :: 10 :: r) = some (tx, r) := by
  have := splitAtTerm_append tx r h hr
  rwa [List.append_assoc] at this

/-- The capture the block regex produces for a rendered cue. -/
def rawOf (l : SubLine) : RawBlock :=
  ⟨l.index, l.start.hours, l.start.minutes, l.start.seconds, l.start.miliseconds,
   l.«end».hours, l.«end».minutes, l.«end».seconds, l.«end».miliseconds, l.text⟩

/-- Fields of a program-representable cue that re-parse exactly: the
index fits in u32 (as the Rust field type forces), hours fit in two
digits, and the remaining time fields satisfy the `Timestamp`
invariants. -/
def fieldsOk (l : SubLine) : Prop :=
  l.index < u32Mod
    ∧ l.start.hours < 100 ∧ l.start.minutes < 60 ∧ l.start.seconds < 60
    ∧ l.start.miliseconds < 1000
    ∧ l.«end».hours < 100 ∧ l.«end».minutes < 60 ∧ l.«end».seconds < 60
    ∧ l.«end».miliseconds < 1000

instance (l : SubLine) : Decidable (fieldsOk l) := by
  unfold fieldsOk; exact inferInstance

/-- The block matcher recovers a rendered cue verbatim, leaving exactly
the following text, provided the cue fields re-render into the fixed
widths, the text does not contain a premature terminator, and what
follows starts with an index digit (or is empty). -/
theorem matchBlockAt_render (l : SubLine) (rest : Text)
    (hf : fieldsOk l)
    (htx : splitAtTerm (l.text ++ [13, 10, 13, 10]) = some (l.text, []))
    (hrest : ∀ c, rest.head? = some c → isDigitC c = true) :
    matchBlockAt (renderLine l ++ rest) = some (rawOf l, rest) := by
  obtain ⟨-, h1, h2, h3, h4, h5, h6, h7, h8⟩ := hf
  rw [matchBlockAt]
  simp only [renderLine, List.append_assoc, List.cons_append, List.nil_append]
  rw [takeDigits_append (natDigits l.index) _ (natDigits_digits l.index)
    (by intro c hc; simp at hc; subst hc; decide)]
  simp only []
  rw [if_neg (by simpa using natDigits_ne_nil l.index)]
  rw [parseLit_crlf]
  simp only [Option.some_bind]
  rw [parseTs_render l.start _ h1 (by omega) (by omega) h4]
  simp only [Option.some_bind]
  rw [parseWs1_space]
  simp only [Option.some_bind]
  rw [parseLit_arrow]
  simp only [Option.some_bind]
  rw [parseWs1_space]
  simp only [Option.some_bind]
  rw [parseTs_render l.«end» _ h5 (by omega) (by omega) h8]
  simp only [Option.some_bind]
  rw [parseLit_crlf]
  simp only [Option.some_bind]
  rw [splitAtTerm_append2 l.text rest htx
    (by intro c hc; have := hrest c hc; simp [isDigitC] at this; omega)]
  simp only [Option.map_some']
  rw [digitsToNat_natDigits]
  rfl

/-- No lone LF: every 10 is immediately preceded by 13.  Texts with this
property are fixed points of `unify`. -/
def goodNL : Text → Bool
  | [] => true
  | [c] => if c = 10 then false else true
  | c :: d :: r =>
    if c = 13 ∧ d = 10 then goodNL r
    else if c = 10 then false
    else goodNL (d :: r)

/-- Line-ending normalization is the identity on texts without lone LF. -/
theorem unify_eq_self : ∀ t : Text, goodNL t = true → unify t = t
  | [], _ => rfl
  | [c], h => by
    by_cases hc : c = 10
    · subst hc; simp [goodNL] at h
    · simp [unify, hc]
  | c :: d :: r, h => by
    by_cases h1 : c = 13 ∧ d = 10
    · obtain ⟨hc, hd⟩ := h1
      subst hc; subst hd
      have h' : goodNL r = true := by simpa [goodNL] using h
      simp [unify, unify_eq_self r h']
    · by_cases h2 : c = 10
      · subst h2
        simp [goodNL, h1] at h
      · have h' : goodNL (d :: r) = true := by
          simp only [goodNL, if_neg h1, if_neg h2] at h
          exact h
        simp [unify, h1, h2, unify_eq_self (d :: r) h']

/-- `goodNL` is preserved by appending a `goodNL` text that does not
begin with LF. -/
theorem goodNL_append : ∀ (a b : Text), goodNL a = true → goodNL b = true →
    b.head? ≠ some 10 → goodNL (a ++ b) = true
  | [], b, _, hb, _ => hb
  | [c], b, ha, hb, hh => by
    cases b with
    | nil => simpa using ha
    | cons d r =>
      show goodNL (c :: d :: r) = true
      by_cases h1 : c = 13 ∧ d = 10
      · exact absurd (by simp [h1.2]) hh
      · by_cases h2 : c = 10
        · subst h2; simp [goodNL] at ha
        · simp only [goodNL, if_neg h1, if_neg h2]
          exact hb
  | c :: d :: r, b, ha, hb, hh => by
    by_cases h1 : c = 13 ∧ d = 10
    · obtain ⟨hc, hd⟩ := h1
      subst hc; subst hd
      have ha' : goodNL r = true := by simpa [goodNL] using ha
      have := goodNL_append r b ha' hb hh
      simpa [goodNL] using this
    · by_cases h2 : c = 10
      · subst h2; simp [goodNL, h1] at ha
      · have ha' : goodNL (d :: r) = true := by
          simp only [goodNL, if_neg h1, if_neg h2] at ha
          exact ha
        have := goodNL_append (d :: r) b ha' hb hh
        show goodNL (c :: d :: (r ++ b)) = true
        simp only [goodNL, if_neg h1, if_neg h2]
        exact this

/-- A text without any LF at all satisfies `goodNL`. -/
theorem goodNL_of_no10 : ∀ t : Text, (∀ c ∈ t, c ≠ 10) → goodNL t = true
  | [], _ => rfl
  | [c], h => by simp [goodNL, h c (by simp)]
  | c :: d :: r, h => by
    have h1 : ¬ (c = 13 ∧ d = 10) := fun hc => h d (by simp) hc.2
    have h2 : c ≠ 10 := h c (by simp)
    simp only [goodNL, if_neg h1, if_neg h2]
    exact goodNL_of_no10 (d :: r) (fun x hx => h x (List.mem_cons_of_mem c hx))

/-- A `goodNL` text cannot begin with LF. -/
theorem goodNL_head : ∀ t : Text, goodNL t = true → t.head? ≠ some 10
  | [], _ => by simp
  | [c], h => by
    by_cases hc : c = 10
    · subst hc; simp [goodNL] at h
    · simpa using hc
  | c :: d :: r, h => by
    by_cases h2 : c = 10
    · subst h2
      have h1 : ¬ ((10 : Nat) = 13 ∧ d = 10) := by omega
      simp [goodNL, h1] at h
    · simpa using h2

/-- All characters of a two-digit padding are digits. -/
theorem pad2_digits (n : Nat) : ∀ c ∈ pad2 n, isDigitC c = true := by
  rw [pad2]
  split_ifs with h
  · intro c hc
    simp at hc
    rcases hc with h' | h' <;> (subst h'; simp [isDigitC]; omega)
  · exact natDigits_digits n

/-- All characters of a three-digit padding are digits. -/
theorem pad3_digits (n : Nat) : ∀ c ∈ pad3 n, isDigitC c = true := by
  rw [pad3]
  split_ifs with h
  · intro c hc
    simp at hc
    rcases hc with h' | h' | h' <;> (subst h'; simp [isDigitC]; omega)
  · exact natDigits_digits n

/-- A rendered timestamp contains no LF. -/
theorem renderTs_no10 (ts : Timestamp) : ∀ c ∈ renderTs ts, c ≠ 10 := by
  intro c hc
  simp only [renderTs, List.mem_append, List.mem_singleton] at hc
  have dig : ∀ m, isDigitC m = true → m ≠ 10 := by intro m hm; simp [isDigitC] at hm; omega
  rcases hc with ((((((h | h) | h) | h) | h) | h) | h)
  · exact dig c (pad2_digits _ c h)
  · subst h; omega
  · exact dig c (pad2_digits _ c h)
  · subst h; omega
  · exact dig c (pad2_digits _ c h)
  · subst h; omega
  · exact dig c (pad3_digits _ c h)

/-- A rendered cue has no lone LF when its text has none. -/
theorem goodNL_renderLine (l : SubLine) (htx : goodNL l.text = true) :
    goodNL (renderLine l) = true := by
  have dig : ∀ m, isDigitC m = true → m ≠ 10 := by intro m hm; simp [isDigitC] at hm; omega
  have g1 : goodNL (natDigits l.index) = true :=
    goodNL_of_no10 _ (fun c hc => dig c (natDigits_digits _ c hc))
  have g2 : goodNL ([13, 10] : Text) = true := by decide
  have g3 : ∀ ts, goodNL (renderTs ts) = true :=
    fun ts => goodNL_of_no10 _ (renderTs_no10 ts)
  have g4 : goodNL ([32, 45, 45, 62, 32] : Text) = true := by decide
  have g5 : goodNL ([13, 10, 13, 10] : Text) = true := by decide
  have hts_head : ∀ ts, (renderTs ts).head? ≠ some 10 := by
    intro ts hcon
    cases hr : renderTs ts with
    | nil => rw [hr] at hcon; simp at hcon
    | cons d rest =>
      rw [hr] at hcon
      simp at hcon
      exact renderTs_no10 ts d (by rw [hr]; simp) hcon
  rw [renderLine]
  refine goodNL_append _ _ ?_ g5 (by decide)
  refine goodNL_append _ _ ?_ htx (goodNL_head _ htx)
  refine goodNL_append _ _ ?_ g2 (by decide)
  refine goodNL_append _ _ ?_ (g3 _) (hts_head _)
  refine goodNL_append _ _ ?_ g4 (by decide)
  refine goodNL_append _ _ ?_ (g3 _) (hts_head _)
  exact goodNL_append _ _ g1 g2 (by decide)

/-- A rendered cue is never empty. -/
theorem renderLine_ne_nil (l : SubLine) : renderLine l ≠ [] := by
  rw [renderLine]
  intro h
  rcases List.append_eq_nil.mp h with ⟨h1, -⟩
  rcases List.append_eq_nil.mp h1 with ⟨h2, -⟩
  rcases List.append_eq_nil.mp h2 with ⟨h3, -⟩
  rcases List.append_eq_nil.mp h3 with ⟨h4, -⟩
  rcases List.append_eq_nil.mp h4 with ⟨h5, -⟩
  rcases List.append_eq_nil.mp h5 with ⟨h6, -⟩
  rcases List.append_eq_nil.mp h6 with ⟨h7, -⟩
  exact natDigits_ne_nil l.index h7

/-- A rendered cue starts with an index digit. -/
theorem renderLine_head (l : SubLine) :
    ∀ c, (renderLine l).head? = some c → isDigitC c = true := by
  intro c hc
  cases hnd : natDigits l.index with
  | nil => exact absurd hnd (natDigits_ne_nil _)
  | cons d ds =>
    have : renderLine l = d :: (ds ++ ([13, 10] ++ renderTs l.start ++ [32, 45, 45, 62, 32]
        ++ renderTs l.«end» ++ [13, 10] ++ l.text ++ [13, 10, 13, 10])) := by
      rw [renderLine, hnd]
      simp [List.append_assoc]
    rw [this] at hc
    simp at hc
    subst hc
    exact natDigits_digits l.index d (by rw [hnd]; simp)

/-- A concatenation of rendered cues starts with a digit, if anything. -/
theorem flatten_head (L : List SubLine) :
    ∀ c, ((L.map renderLine).flatten).head? = some c → isDigitC c = true := by
  cases L with
  | nil => simp
  | cons l L =>
    intro c hc
    have hfl : ((l :: L).map renderLine).flatten
        = renderLine l ++ (L.map renderLine).flatten := by simp
    rw [hfl] at hc
    cases hrl : renderLine l with
    | nil => exact absurd hrl (renderLine_ne_nil l)
    | cons d Y =>
      rw [hrl] at hc
      simp at hc
      subst hc
      exact renderLine_head l d (by rw [hrl]; rfl)

/-- A concatenation of rendered cues has no lone LF when no cue text
has one. -/
theorem goodNL_flatten : ∀ L : List SubLine, (∀ l ∈ L, goodNL l.text = true) →
    goodNL ((L.map renderLine).flatten) = true
  | [], _ => rfl
  | l :: L, h => by
    have hfl : ((l :: L).map renderLine).flatten
        = renderLine l ++ (L.map renderLine).flatten := by simp
    rw [hfl]
    refine goodNL_append _ _ (goodNL_renderLine l (h l (by simp)))
      (goodNL_flatten L (fun x hx => h x (List.mem_cons_of_mem l hx))) ?_
    intro hcon
    have := flatten_head L 10 hcon
    simp [isDigitC] at this

/-- Whether the last character exists and is not whitespace. -/
def lastNonWsp (tx : Text) : Bool :=
  match tx.getLast? with
  | some c => !(isWsp c)
  | none => false

/-- Stripping trailing whitespace removes exactly the final CRLF CRLF
when the text before it ends with a non-whitespace character. -/
theorem strip_append_term (B : Text) (hB : lastNonWsp B = true) :
    stripTrailingWsp (B ++ [13, 10, 13, 10]) = B := by
  rcases List.eq_nil_or_concat B with rfl | ⟨B', c, hBc⟩
  · simp [lastNonWsp] at hB
  · rw [List.concat_eq_append] at hBc
    subst hBc
    have hc : isWsp c = false := by
      rw [lastNonWsp, List.getLast?_concat] at hB
      simpa using hB
    rw [stripTrailingWsp, List.reverse_append,
      show ([13, 10, 13, 10] : Text).reverse = [10, 13, 10, 13] from rfl]
    rw [show ([10, 13, 10, 13] : Text) ++ (B' ++ [c]).reverse
        = 10 :: 13 :: 10 :: 13 :: (B' ++ [c]).reverse from rfl]
    rw [List.reverse_append, show ([c] : Text).reverse = [c] from rfl,
      show ([c] : Text) ++ B'.reverse = c :: B'.reverse from rfl]
    simp [List.dropWhile_cons, hc]
    norm_num [isWsp]

/-- On fields already within the invariants, `Timestamp::new` is the
identity. -/
theorem Timestamp.new_eq_self (t : Timestamp) (h : t.valid) :
    Timestamp.new t.hours t.minutes t.seconds t.miliseconds = t := by
  obtain ⟨h1, h2, h3⟩ := h
  rw [Timestamp.new]
  rw [if_neg (show ¬ 1000 ≤ t.miliseconds from by omega),
    if_neg (show ¬ 1000 ≤ t.miliseconds from by omega),
    if_neg (show ¬ 60 ≤ t.seconds from by omega),
    if_neg (show ¬ 60 ≤ t.seconds from by omega),
    if_neg (show ¬ 60 ≤ t.minutes from by omega),
    if_neg (show ¬ 60 ≤ t.minutes from by omega)]

/-- Rebuilding a cue from its own capture gives the cue back. -/
theorem mkLine_rawOf (l : SubLine) (hf : fieldsOk l) : mkLine (rawOf l) = l := by
  obtain ⟨-, h1, h2, h3, h4, h5, h6, h7, h8⟩ := hf
  show SubLine.mk _ _ _ _ = l
  rw [show (rawOf l).index = l.index from rfl]
  rw [show Timestamp.new (rawOf l).sh (rawOf l).sm (rawOf l).ss (rawOf l).sms
      = Timestamp.new l.start.hours l.start.minutes l.start.seconds l.start.miliseconds from rfl]
  rw [show Timestamp.new (rawOf l).eh (rawOf l).em (rawOf l).es (rawOf l).ems
      = Timestamp.new l.«end».hours l.«end».minutes l.«end».seconds l.«end».miliseconds from rfl]
  rw [Timestamp.new_eq_self l.start ⟨h4, h3, h2⟩, Timestamp.new_eq_self l.«end» ⟨h8, h7, h6⟩]
  rfl

/-- Scanner step when a block matches at the current position. -/
theorem scanBlocks_cons_match (fuel : Nat) (c : Nat) (rest : Text) (b : RawBlock) (r : Text)
    (h : matchBlockAt (c :: rest) = some (b, r)) :
    scanBlocks (fuel + 1) (c :: rest) = b :: scanBlocks fuel r := by
  rw [scanBlocks]
  simp [h]

/-- Cue texts that survive the round trip: no lone LF, and the first
CRLF CRLF after the text is the block terminator itself (so the text
contains no CRLF CRLF and does not end with CR LF or CR). -/
def textOk (tx : Text) : Prop :=
  goodNL tx = true ∧ splitAtTerm (tx ++ [13, 10, 13, 10]) = some (tx, [])

instance (tx : Text) : Decidable (textOk tx) := by
  unfold textOk; exact inferInstance

/-- The scanner recovers exactly the cue list from a concatenation of
rendered cues. -/
theorem scanBlocks_flatten : ∀ (L : List SubLine) (fuel : Nat),
    (∀ l ∈ L, fieldsOk l) → (∀ l ∈ L, textOk l.text) →
    ((L.map renderLine).flatten).length ≤ fuel →
    scanBlocks fuel ((L.map renderLine).flatten) = L.map rawOf
  | [], fuel, _, _, _ => by cases fuel <;> rfl
  | l :: L, fuel, hf, ht, hfuel => by
    have hfl : ((l :: L).map renderLine).flatten
        = renderLine l ++ (L.map renderLine).flatten := by simp
    have hmatch : matchBlockAt (renderLine l ++ (L.map renderLine).flatten)
        = some (rawOf l, (L.map renderLine).flatten) :=
      matchBlockAt_render l _ (hf l (by simp)) (ht l (by simp)).2 (flatten_head L)
    have hlen1 : 1 ≤ (renderLine l).length := by
      cases hrl : renderLine l with
      | nil => exact absurd hrl (renderLine_ne_nil l)
      | cons d Y => simp
    have hlen2 : ((l :: L).map renderLine).flatten.length
        = (renderLine l).length + ((L.map renderLine).flatten).length := by
      rw [hfl, List.length_append]
    obtain ⟨f, rfl⟩ : ∃ f, fuel = f + 1 := ⟨fuel - 1, by omega⟩
    rw [hfl]
    cases hrl : renderLine l with
    | nil => exact absurd hrl (renderLine_ne_nil l)
    | cons d Y =>
      rw [hrl] at hmatch
      rw [show (d :: Y) ++ (L.map renderLine).flatten
          = d :: (Y ++ (L.map renderLine).flatten) from rfl]
      rw [scanBlocks_cons_match f d (Y ++ (L.map renderLine).flatten) (rawOf l)
        ((L.map renderLine).flatten) hmatch]
      rw [scanBlocks_flatten L f (fun x hx => hf x (List.mem_cons_of_mem l hx))
        (fun x hx => ht x (List.mem_cons_of_mem l hx)) (by omega)]
      rfl

/-- Last line of a nonempty cue list ends its text with a non-whitespace
character. -/
def lastLineOk (L : List SubLine) : Prop :=
  ∀ l, L.getLast? = some l → lastNonWsp l.text = true

/-- A concatenation of rendered cues loses exactly its final CRLF CRLF
to the whitespace strip when the last text ends with non-whitespace. -/
theorem flatten_strip (L : List SubLine) (hne : L ≠ [])
    (hlast : lastLineOk L) :
    stripTrailingWsp ((L.map renderLine).flatten) ++ [13, 10, 13, 10]
      = (L.map renderLine).flatten := by
  rcases List.eq_nil_or_concat L with rfl | ⟨L', llast, hLc⟩
  · exact absurd rfl hne
  · rw [List.concat_eq_append] at hLc
    subst hLc
    have hmemlast : lastNonWsp llast.text = true :=
      hlast llast (by rw [List.getLast?_concat])
    have hdecomp : ((L' ++ [llast]).map renderLine).flatten
        = ((L'.map renderLine).flatten
            ++ (natDigits llast.index ++ [13, 10] ++ renderTs llast.start
              ++ [32, 45, 45, 62, 32] ++ renderTs llast.«end» ++ [13, 10] ++ llast.text))
          ++ [13, 10, 13, 10] := by
      simp [renderLine, List.append_assoc]
    rw [hdecomp, strip_append_term]
    rcases List.eq_nil_or_concat llast.text with htx | ⟨tx', c, htxc⟩
    · rw [htx] at hmemlast
      simp [lastNonWsp] at hmemlast
    · rw [List.concat_eq_append] at htxc
      rw [lastNonWsp]
      rw [show ((L'.map renderLine).flatten
            ++ (natDigits llast.index ++ [13, 10] ++ renderTs llast.start
              ++ [32, 45, 45, 62, 32] ++ renderTs llast.«end» ++ [13, 10] ++ llast.text))
          = ((L'.map renderLine).flatten
            ++ (natDigits llast.index ++ [13, 10] ++ renderTs llast.start
              ++ [32, 45, 45, 62, 32] ++ renderTs llast.«end» ++ [13, 10]) ++ llast.text)
        from by simp [List.append_assoc]]
      rw [htxc, ← List.append_assoc, List.getLast?_concat]
      rw [lastNonWsp, htxc, List.getLast?_concat] at hmemlast
      exact hmemlast

/-- Claim C1, amended: for well-formed input - text that is the rendering
of a nonempty program-representable cue list (u32 indices) whose hours
fit in two digits, whose other time fields satisfy the invariants, and
whose texts are terminator-free with a non-whitespace final character on
the last cue - normalization is the identity, `parse` accepts and returns
exactly those cues, and `render(parse(T))` equals `normalize(T)` followed
by one extra blank line, not `normalize(T)` itself. -/
theorem c1_round_trip (L : List SubLine)
    (hne : L ≠ [])
    (hfields : ∀ l ∈ L, fieldsOk l)
    (htext : ∀ l ∈ L, textOk l.text)
    (hlast : lastLineOk L) :
    prepare ((L.map renderLine).flatten) = (L.map renderLine).flatten
    ∧ parse ((L.map renderLine).flatten) = RustResult.ok ⟨L⟩
    ∧ render ⟨L⟩ = prepare ((L.map renderLine).flatten) ++ [13, 10, 13, 10] := by
  have hgood : goodNL ((L.map renderLine).flatten) = true :=
    goodNL_flatten L (fun l hl => (htext l hl).1)
  have hprep : prepare ((L.map renderLine).flatten) = (L.map renderLine).flatten := by
    rw [prepare, flatten_strip L hne hlast]
    exact unify_eq_self _ hgood
  have hscan : scanBlocksAll ((L.map renderLine).flatten) = L.map rawOf :=
    scanBlocks_flatten L _ hfields htext (le_refl _)
  have hcheck : check ((L.map renderLine).flatten) = true := by
    rw [check, hscan]
    cases L with
    | nil => exact absurd rfl hne
    | cons a M => simp
  have hfromstr : from_str ((L.map renderLine).flatten) = RustResult.ok ⟨L⟩ := by
    have hall : ((scanBlocksAll ((L.map renderLine).flatten)).all
        (fun b => decide (b.index < u32Mod))) = true := by
      rw [hscan, List.all_eq_true]
      intro b hb
      obtain ⟨x, hx, rfl⟩ := List.mem_map.mp hb
      exact decide_eq_true (hfields x hx).1
    rw [from_str, if_pos hall, hscan]
    congr 1
    rw [List.map_map]
    rw [show L.map (mkLine ∘ rawOf) = L.map id from
      List.map_congr_left (fun x hx => mkLine_rawOf x (hfields x hx))]
    rw [List.map_id]
  refine ⟨hprep, ?_, ?_⟩
  · unfold parse
    rw [hprep]
    show (if check ((L.map renderLine).flatten) = true
        then from_str ((L.map renderLine).flatten)
        else RustResult.err "Given file does not match with srt format specification")
      = RustResult.ok ⟨L⟩
    rw [hcheck]
    simpa using hfromstr
  · show (L.map renderLine).flatten ++ [13, 10, 13, 10]
      = prepare ((L.map renderLine).flatten) ++ [13, 10, 13, 10]
    rw [hprep]

/-- One-cue list used to instantiate the round-trip theorem. -/
def sampleLines : List SubLine := [⟨1, ⟨0, 0, 0, 0⟩, ⟨0, 0, 1, 0⟩, [72, 105]⟩]

/-- Claim C1, witness: the round trip up to the extra blank line on a
concrete one-cue text. -/
theorem c1_round_trip_witness :
    parse ((sampleLines.map renderLine).flatten) = RustResult.ok ⟨sampleLines⟩
    ∧ render ⟨sampleLines⟩
        = prepare ((sampleLines.map renderLine).flatten) ++ [13, 10, 13, 10] := by
  obtain ⟨-, h2, h3⟩ := c1_round_trip sampleLines (by decide)
    (by intro l hl; simp [sampleLines] at hl; subst hl; decide)
    (by intro l hl; simp [sampleLines] at hl; subst hl; decide)
    (by intro l hl; simp [sampleLines] at hl; subst hl; decide)
  exact ⟨h2, h3⟩
